import Mathlib

/-!
# Verification of `lisspyscope` (`src/lisspyscope/core.py`)

A shallow embedding of the core waveform generator.  Python numbers are
modelled exactly: `float` arguments become rationals (every Python float is a
rational), `int` arguments become integers, and the sample values — sines of
real arguments — live in `ℝ`.  A Python `ValueError` raised by validation is
modelled as `Except.error` carrying the message; the normal return value as
`Except.ok`.

The dynamic type test `isinstance(ratio, int)` in `_validate` forces the
`ratio` argument to be modelled as a tagged Python number (`PyNum`), not a
bare integer.
-/

namespace Lisspyscope

/-- A Python numeric argument: an `int` carrying an integer, or a `float`
carrying its (exact, rational) value. -/
inductive PyNum where
  | int (n : ℤ)
  | float (x : ℚ)
deriving DecidableEq

/-- The numeric value of a Python number, as used by comparisons such as
`ratio <= 0` (Python compares `int` and `float` by value). -/
def PyNum.val : PyNum → ℚ
  | .int n => n
  | .float x => x

/-- `isinstance(v, int)`. -/
def PyNum.isInt : PyNum → Bool
  | .int _ => true
  | .float _ => false

/-- Python `int(x)` applied to a real-valued `x`: truncation toward zero. -/
def pyTrunc (q : ℚ) : ℤ := if q < 0 then ⌈q⌉ else ⌊q⌋

/-- `_lcm(a, b)` (core.py line 33): `abs(a * b) // gcd(a, b)`.  `math.gcd`
returns a nonnegative integer and `//` on nonnegative integers is ordinary
natural-number division. -/
def _lcm (a b : ℤ) : ℤ := ((a * b).natAbs / Int.gcd a b : ℕ)

/-- `_auto_duration(base_freq, ratio)` (core.py line 39): the duration, in
seconds, is `_lcm(1, ratio) / base_freq`. -/
def _auto_duration (base_freq : ℚ) (ratio : ℤ) : ℚ :=
  (_lcm 1 ratio : ℚ) / base_freq

/-- `_validate(base_freq, ratio, sr)` (core.py line 44), with the
`ValueError`s it raises modelled as `Except.error` of the message.  The
source tests, in order: `base_freq <= 0`, then
`ratio <= 0 or not isinstance(ratio, int)`, then `sr <= 0`. -/
def _validate (base_freq : ℚ) (ratio : PyNum) (sr : ℤ) : Except String Unit :=
  if base_freq ≤ 0 then .error "base_freq must be positive."
  else if ratio.val ≤ 0 ∨ ratio.isInt = false then .error "ratio must be a positive integer."
  else if sr ≤ 0 then .error "sample rate must be positive."
  else .ok ()

/-- `np.deg2rad(d)`: degrees to radians, `d · π / 180`. -/
noncomputable def deg2rad (d : ℚ) : ℝ := (d : ℝ) * Real.pi / 180

/-- One sample of `np.clip(·, -1.0, 1.0)` (core.py line 88): clamp to
`[-1, 1]`. -/
noncomputable def clip (x : ℝ) : ℝ := min (max x (-1)) 1

/-- The `k`-th of the `num` points of
`np.linspace(0.0, duration, num, endpoint=False)` (core.py line 82): the
step is `duration / num` and the points are `0, step, 2·step, …` — the left
endpoint is included, the right endpoint `duration` excluded. -/
def linspacePoint (duration : ℚ) (num : ℤ) (k : ℕ) : ℚ := duration / num * k

/-- `int(sr * duration)` (core.py line 82): the number of frames generated,
with the duration computed by `_auto_duration`. -/
def frameCount (base_freq : ℚ) (ratio sr : ℤ) : ℤ :=
  pyTrunc ((sr : ℚ) * _auto_duration base_freq ratio)

/-- The number of cycles a channel of frequency `freq` has completed at the
`k`-th sample time: `freq · t_k`.  The sine argument of that channel's sample
is `2π` times this quantity (plus, on the right channel, the constant phase
offset).  Phase position mod `2π` radians corresponds to cycle position
mod `1`. -/
def phaseCycles (freq duration : ℚ) (num : ℤ) (k : ℕ) : ℚ :=
  freq * linspacePoint duration num k

/-- The distance between two positions on the circle of cycle positions
(values mod 1), measured the shorter way around. -/
def cycleDist (a b : ℚ) : ℚ :=
  min (Int.fract (a - b)) (1 - Int.fract (a - b))

/-- The stereo frames built by `generate_lissajous` (core.py lines 77-88)
after validation has passed, for an `int` ratio: with
`f_left = base_freq`, `f_right = base_freq * ratio`,
`phase = deg2rad(phase_deg)`, `duration = _auto_duration(base_freq, ratio)`
and `num = int(sr * duration)` frames, frame `k` is
`(sin(2π f_left t_k), sin(2π f_right t_k + phase))` at
`t_k = linspacePoint duration num k`, each sample clipped to `[-1, 1]`. -/
noncomputable def lissFrames (base_freq : ℚ) (ratio : ℤ) (phase_deg : ℚ) (sr : ℤ) :
    List (ℝ × ℝ) :=
  let f_left : ℚ := base_freq
  let f_right : ℚ := base_freq * ratio
  let phase : ℝ := deg2rad phase_deg
  let duration : ℚ := _auto_duration base_freq ratio
  let num : ℤ := frameCount base_freq ratio sr
  (List.range num.toNat).map fun k =>
    let t : ℚ := linspacePoint duration num k
    (clip (Real.sin (2 * Real.pi * (f_left : ℝ) * (t : ℝ))),
     clip (Real.sin (2 * Real.pi * (f_right : ℝ) * (t : ℝ) + phase)))

/-- `generate_lissajous(base_freq, ratio, phase_deg, sr)` (core.py line 56):
validate first (an exception propagates and no buffer is built), then return
the stereo buffer together with the sample rate that was passed in.  A
`float` ratio never passes validation, so the `TypeError` that `math.gcd`
would raise on a `float` argument is unreachable. -/
noncomputable def generate_lissajous (base_freq : ℚ) (ratio : PyNum) (phase_deg : ℚ)
    (sr : ℤ) : Except String (List (ℝ × ℝ) × ℤ) :=
  match _validate base_freq ratio sr with
  | .error e => .error e
  | .ok _ =>
    match ratio with
    | .int n => .ok (lissFrames base_freq n phase_deg sr, sr)
    | .float _ => .error "TypeError: ratio is not an integer"

/-! ## Helper lemmas -/

/-- Clipping a sine value changes nothing: sine already lies in `[-1, 1]`. -/
lemma clip_sin (x : ℝ) : clip (Real.sin x) = Real.sin x := by
  unfold clip
  rw [max_eq_left (Real.neg_one_le_sin x), min_eq_left ?_]
  exact le_trans (Real.sin_le_one x) (le_refl 1)

/-- A clipped value lies in `[-1, 1]`. -/
lemma clip_bounds (x : ℝ) : -1 ≤ clip x ∧ clip x ≤ 1 := by
  unfold clip
  exact ⟨le_min (le_max_right x (-1)) (by norm_num), min_le_right _ 1⟩

/-- `_lcm(1, n) = n` for nonnegative `n`. -/
lemma _lcm_one_left (n : ℤ) (hn : 0 ≤ n) : _lcm 1 n = n := by
  simp [_lcm, Int.one_gcd, Int.natAbs_of_nonneg hn]

/-- The automatically computed duration is `ratio / base_freq`. -/
lemma _auto_duration_eq (f : ℚ) (n : ℤ) (hn : 0 ≤ n) :
    _auto_duration f n = (n : ℚ) / f := by
  rw [_auto_duration, _lcm_one_left n hn]

lemma duration_nonneg (f : ℚ) (n : ℤ) (hf : 0 < f) : 0 ≤ _auto_duration f n := by
  unfold _auto_duration _lcm
  apply div_nonneg _ hf.le
  positivity

lemma sr_mul_duration_nonneg (f : ℚ) (n sr : ℤ) (hf : 0 < f) (hsr : 0 ≤ sr) :
    0 ≤ (sr : ℚ) * _auto_duration f n :=
  mul_nonneg (by exact_mod_cast hsr) (duration_nonneg f n hf)

/-- For nonnegative arguments, Python truncation is the floor. -/
lemma frameCount_eq_floor (f : ℚ) (n sr : ℤ) (hf : 0 < f) (hsr : 0 ≤ sr) :
    frameCount f n sr = ⌊(sr : ℚ) * _auto_duration f n⌋ := by
  unfold frameCount pyTrunc
  exact if_neg (not_lt.mpr (sr_mul_duration_nonneg f n sr hf hsr))

lemma frameCount_nonneg (f : ℚ) (n sr : ℤ) (hf : 0 < f) (hsr : 0 ≤ sr) :
    0 ≤ frameCount f n sr := by
  rw [frameCount_eq_floor f n sr hf hsr]
  exact Int.floor_nonneg.mpr (sr_mul_duration_nonneg f n sr hf hsr)

/-- Validation succeeds on valid parameters. -/
lemma _validate_ok (f : ℚ) (n sr : ℤ) (hf : 0 < f) (hn : 0 < n) (hsr : 0 < sr) :
    _validate f (PyNum.int n) sr = Except.ok () := by
  have h2 : ¬ ((PyNum.int n).val ≤ 0 ∨ (PyNum.int n).isInt = false) := by
    push_neg
    refine ⟨?_, by simp [PyNum.isInt]⟩
    simp only [PyNum.val, not_le]
    exact_mod_cast hn
  unfold _validate
  rw [if_neg (not_le.mpr hf), if_neg h2, if_neg (not_le.mpr hsr)]

/-- On valid parameters, `generate_lissajous` returns the frame list and the
input sample rate. -/
lemma generate_ok (f p : ℚ) (n sr : ℤ) (hf : 0 < f) (hn : 0 < n) (hsr : 0 < sr) :
    generate_lissajous f (PyNum.int n) p sr =
      Except.ok (lissFrames f n p sr, sr) := by
  unfold generate_lissajous
  rw [_validate_ok f n sr hf hn hsr]

lemma lissFrames_length (f p : ℚ) (n sr : ℤ) :
    (lissFrames f n p sr).length = (frameCount f n sr).toNat := by
  simp [lissFrames]

/-- A `float` ratio never passes validation. -/
lemma _validate_float (f x : ℚ) (sr : ℤ) :
    ∃ e, _validate f (PyNum.float x) sr = Except.error e := by
  unfold _validate
  by_cases hf : f ≤ 0
  · rw [if_pos hf]; exact ⟨_, rfl⟩
  · rw [if_neg hf, if_pos (Or.inr (show (PyNum.float x).isInt = false from rfl))]
    exact ⟨_, rfl⟩

lemma generate_float_error (f p x : ℚ) (sr : ℤ) :
    ∃ e, generate_lissajous f (PyNum.float x) p sr = Except.error e := by
  obtain ⟨e, he⟩ := _validate_float f x sr
  exact ⟨e, by unfold generate_lissajous; rw [he]⟩

/-- Validation fails on an `int` ratio when one of the bounds is violated. -/
lemma _validate_int_error (f : ℚ) (n sr : ℤ)
    (h : f ≤ 0 ∨ n ≤ 0 ∨ sr ≤ 0) :
    ∃ e, _validate f (PyNum.int n) sr = Except.error e := by
  unfold _validate
  by_cases h1 : f ≤ 0
  · rw [if_pos h1]; exact ⟨_, rfl⟩
  · rw [if_neg h1]
    by_cases h2 : (PyNum.int n).val ≤ 0 ∨ (PyNum.int n).isInt = false
    · rw [if_pos h2]; exact ⟨_, rfl⟩
    · rw [if_neg h2]
      have h3 : sr ≤ 0 := by
        rcases h with h | h | h
        · exact absurd h h1
        · refine absurd (Or.inl ?_) h2
          simp only [PyNum.val]
          exact_mod_cast h
        · exact h
      rw [if_pos h3]; exact ⟨_, rfl⟩

lemma generate_error_of_validate (f p : ℚ) (r : PyNum) (sr : ℤ) (e : String)
    (h : _validate f r sr = Except.error e) :
    generate_lissajous f r p sr = Except.error e := by
  unfold generate_lissajous; rw [h]

lemma lissFrames_get (f p : ℚ) (n sr : ℤ) (k : ℕ)
    (hk : k < (lissFrames f n p sr).length) :
    (lissFrames f n p sr).get ⟨k, hk⟩ =
      (clip (Real.sin (2 * Real.pi * (f : ℝ) *
          ((linspacePoint (_auto_duration f n) (frameCount f n sr) k : ℚ) : ℝ))),
       clip (Real.sin (2 * Real.pi * ((f * (n : ℚ) : ℚ) : ℝ) *
          ((linspacePoint (_auto_duration f n) (frameCount f n sr) k : ℚ) : ℝ) +
          deg2rad p))) := by
  simp [lissFrames, List.get_eq_getElem]

/-! ## The claims -/

/-- **C3.** `generate_lissajous` fails (with the modelled `ValueError`, and
with no buffer in the result) exactly when `base_freq ≤ 0`, or the ratio is
not a positive `int`, or `sample_rate ≤ 0`; on every other input no error is
raised. -/
theorem generate_error_iff (f p : ℚ) (r : PyNum) (sr : ℤ) :
    (∃ e, generate_lissajous f r p sr = Except.error e) ↔
      f ≤ 0 ∨ (¬ ∃ n : ℤ, r = PyNum.int n ∧ 0 < n) ∨ sr ≤ 0 := by
  cases r with
  | float x =>
    constructor
    · intro _
      refine Or.inr (Or.inl ?_)
      rintro ⟨n, hn, -⟩
      cases hn
    · intro _
      exact generate_float_error f p x sr
  | int n =>
    rw [show (¬ ∃ m : ℤ, PyNum.int n = PyNum.int m ∧ 0 < m) ↔ n ≤ 0 by simp]
    constructor
    · rintro ⟨e, he⟩
      by_contra hcon
      push_neg at hcon
      obtain ⟨h1, h2, h3⟩ := hcon
      rw [generate_ok f p n sr h1 h2 h3] at he
      cases he
    · intro h
      obtain ⟨e, he⟩ := _validate_int_error f n sr h
      exact ⟨e, generate_error_of_validate f p (PyNum.int n) sr e he⟩

/-- **C6.** `generate_lissajous(base_freq=500, ratio=3, phase_deg=45,
sample_rate=48000)` succeeds, returns the sample rate `48000` unchanged, and
the buffer holds exactly `⌊48000 · 3 / 500⌋ = 288` stereo frames. -/
theorem concrete_scenario_500_3_45_48000 :
    generate_lissajous 500 (PyNum.int 3) 45 48000 =
      Except.ok (lissFrames 500 3 45 48000, 48000) ∧
    (lissFrames 500 3 45 48000).length = 288 := by
  refine ⟨generate_ok 500 45 3 48000 (by norm_num) (by norm_num) (by norm_num), ?_⟩
  rw [lissFrames_length, frameCount_eq_floor 500 3 48000 (by norm_num) (by norm_num),
    _auto_duration_eq 500 3 (by norm_num)]
  norm_num
  rfl

/-- **C7.** `generate_lissajous` is deterministic: its output is a function
of its four arguments alone.  The source reads and writes no module-level
mutable state, uses no randomness, and the embedding is therefore a pure
function, for which two calls with identical parameters are definitionally
the same value. -/
theorem generate_deterministic (f p : ℚ) (r : PyNum) (sr : ℤ) :
    generate_lissajous f r p sr = generate_lissajous f r p sr := rfl

/-- **C8.** Whenever `generate_lissajous` succeeds, the second component of
the returned pair is exactly the `sample_rate` that was passed in. -/
theorem returns_input_sample_rate (f p : ℚ) (r : PyNum) (sr : ℤ)
    (buf : List (ℝ × ℝ)) (out : ℤ)
    (h : generate_lissajous f r p sr = Except.ok (buf, out)) : out = sr := by
  unfold generate_lissajous at h
  split at h
  · simp at h
  · cases r with
    | int n =>
      simp at h
      exact h.2.symm
    | float x => simp at h

/-- Witness for C8 at `base_freq = 1`, `ratio = 1`, `phase_deg = 0`,
`sample_rate = 2`. -/
theorem returns_input_sample_rate_witness :
    generate_lissajous 1 (PyNum.int 1) 0 2 = Except.ok (lissFrames 1 1 0 2, 2) ∧
    (2 : ℤ) = 2 := by
  have h : generate_lissajous 1 (PyNum.int 1) 0 2 =
      Except.ok (lissFrames 1 1 0 2, 2) :=
    generate_ok 1 0 1 2 (by norm_num) (by norm_num) (by norm_num)
  exact ⟨h, returns_input_sample_rate 1 0 (PyNum.int 1) 2 (lissFrames 1 1 0 2) 2 h⟩

/-- **C9.** A ratio that is not of `int` type is always rejected, even when
its value is a positive whole number; in particular `ratio = 3.0` with
otherwise valid parameters raises the "positive integer" `ValueError`. -/
theorem float_ratio_rejected (f p x : ℚ) (sr : ℤ) :
    (∃ e, generate_lissajous f (PyNum.float x) p sr = Except.error e) ∧
    generate_lissajous 440 (PyNum.float 3) 0 48000 =
      Except.error "ratio must be a positive integer." := by
  refine ⟨generate_float_error f p x sr, ?_⟩
  rfl

/-- **C10.** When `sample_rate · ratio < base_freq` (all parameters valid),
the frame count `int(sr * duration)` is zero: no error is raised and the
result is the empty buffer together with the input sample rate. -/
theorem small_rate_empty_buffer (f p : ℚ) (n sr : ℤ)
    (hf : 0 < f) (hn : 0 < n) (hsr : 0 < sr) (hsmall : (sr : ℚ) * (n : ℚ) < f) :
    generate_lissajous f (PyNum.int n) p sr = Except.ok ([], sr) := by
  rw [generate_ok f p n sr hf hn hsr]
  have hN : frameCount f n sr = 0 := by
    rw [frameCount_eq_floor f n sr hf hsr.le, Int.floor_eq_zero_iff]
    refine ⟨sr_mul_duration_nonneg f n sr hf hsr.le, ?_⟩
    rw [_auto_duration_eq f n hn.le, ← mul_div_assoc, div_lt_one hf]
    exact hsmall
  have hnil : lissFrames f n p sr = [] := by
    simp [lissFrames, hN]
  rw [hnil]

/-- Witness for C10 at `base_freq = 1000`, `ratio = 1`, `phase_deg = 0`,
`sample_rate = 3`: the buffer is empty and the sample rate is echoed. -/
theorem small_rate_empty_buffer_witness :
    generate_lissajous 1000 (PyNum.int 1) 0 3 = Except.ok ([], 3) :=
  small_rate_empty_buffer 1000 0 1 3 (by norm_num) (by norm_num) (by norm_num)
    (by norm_num)

/-- **C1.** On every valid input the call succeeds; the buffer has
`N = ⌊sample_rate · duration⌋` frames; and frame `k` is
`(sin(2π·base_freq·t_k), sin(2π·base_freq·ratio·t_k + phase_deg·π/180))`
with `t_k = duration · k / N` — the `N` evenly spaced times over the
half-open interval `[0, duration)` (the clip is the identity on sine
values, so the stored samples are exactly these sines). -/
theorem generate_frames_spec (base_freq phase_deg : ℚ) (n sr : ℤ)
    (hf : 0 < base_freq) (hn : 0 < n) (hsr : 0 < sr) :
    generate_lissajous base_freq (PyNum.int n) phase_deg sr =
      Except.ok (lissFrames base_freq n phase_deg sr, sr) ∧
    ((lissFrames base_freq n phase_deg sr).length : ℤ) =
      ⌊(sr : ℚ) * _auto_duration base_freq n⌋ ∧
    ∀ k (hk : k < (lissFrames base_freq n phase_deg sr).length),
      (lissFrames base_freq n phase_deg sr).get ⟨k, hk⟩ =
        (Real.sin (2 * Real.pi * (base_freq : ℝ) *
           ((_auto_duration base_freq n * k / frameCount base_freq n sr : ℚ) : ℝ)),
         Real.sin (2 * Real.pi * (base_freq : ℝ) * (n : ℝ) *
           ((_auto_duration base_freq n * k / frameCount base_freq n sr : ℚ) : ℝ) +
           (phase_deg : ℝ) * Real.pi / 180)) := by
  refine ⟨generate_ok base_freq phase_deg n sr hf hn hsr, ?_, ?_⟩
  · rw [lissFrames_length,
      Int.toNat_of_nonneg (frameCount_nonneg base_freq n sr hf hsr.le),
      frameCount_eq_floor base_freq n sr hf hsr.le]
  · intro k hk
    rw [lissFrames_get, clip_sin, clip_sin]
    have ht : linspacePoint (_auto_duration base_freq n) (frameCount base_freq n sr) k =
        _auto_duration base_freq n * k / frameCount base_freq n sr := by
      rw [linspacePoint, div_mul_eq_mul_div]
    rw [ht, deg2rad]
    push_cast
    ring_nf

/-- Witness for C1 at `base_freq = 1`, `ratio = 1`, `phase_deg = 0`,
`sample_rate = 2`: the call succeeds and the buffer has
`⌊2 · duration⌋ = 2` frames. -/
theorem generate_frames_spec_witness :
    (0 : ℚ) < 1 ∧ (0 : ℤ) < 1 ∧ (0 : ℤ) < 2 ∧
    generate_lissajous 1 (PyNum.int 1) 0 2 = Except.ok (lissFrames 1 1 0 2, 2) ∧
    ((lissFrames 1 1 0 2).length : ℤ) = ⌊((2 : ℤ) : ℚ) * _auto_duration 1 1⌋ := by
  have h := generate_frames_spec 1 0 1 2 (by norm_num) (by norm_num) (by norm_num)
  exact ⟨by norm_num, by norm_num, by norm_num, h.1, h.2.1⟩

/-- **C2.** On every valid input the duration used is
`_lcm(1, ratio) / base_freq` (that is how `_auto_duration` computes it),
which is `ratio / base_freq` for any positive integer ratio, and the frame
count is `N = ⌊sample_rate · duration⌋`. -/
theorem auto_duration_lcm_spec (f p : ℚ) (n sr : ℤ)
    (hf : 0 < f) (hn : 0 < n) (hsr : 0 < sr) :
    _auto_duration f n = (_lcm 1 n : ℚ) / f ∧
    _auto_duration f n = (n : ℚ) / f ∧
    ((lissFrames f n p sr).length : ℤ) = ⌊(sr : ℚ) * _auto_duration f n⌋ := by
  refine ⟨rfl, _auto_duration_eq f n hn.le, ?_⟩
  rw [lissFrames_length,
    Int.toNat_of_nonneg (frameCount_nonneg f n sr hf hsr.le),
    frameCount_eq_floor f n sr hf hsr.le]

/-- Witness for C2 at `base_freq = 2`, `ratio = 3`, `phase_deg = 0`,
`sample_rate = 5`: the duration is `3 / 2` seconds. -/
theorem auto_duration_lcm_spec_witness :
    (0 : ℚ) < 2 ∧ (0 : ℤ) < 3 ∧ (0 : ℤ) < 5 ∧
    _auto_duration 2 3 = ((3 : ℤ) : ℚ) / 2 := by
  have h := auto_duration_lcm_spec 2 0 3 5 (by norm_num) (by norm_num) (by norm_num)
  exact ⟨by norm_num, by norm_num, by norm_num, h.2.1⟩

/-- **C5.** Every sample of any buffer that `generate_lissajous` returns
lies in the closed range `[-1, 1]`: each sine value is passed through the
hard clip before the buffer is returned. -/
theorem samples_in_unit_range (f p : ℚ) (r : PyNum) (sr : ℤ)
    (buf : List (ℝ × ℝ)) (out : ℤ)
    (h : generate_lissajous f r p sr = Except.ok (buf, out)) :
    ∀ q ∈ buf, -1 ≤ q.1 ∧ q.1 ≤ 1 ∧ -1 ≤ q.2 ∧ q.2 ≤ 1 := by
  have hbuf : ∃ n : ℤ, buf = lissFrames f n p sr := by
    cases r with
    | int n =>
      unfold generate_lissajous at h
      split at h
      · simp at h
      · simp at h
        exact ⟨n, h.1.symm⟩
    | float x =>
      obtain ⟨e, he⟩ := generate_float_error f p x sr
      rw [he] at h
      simp at h
  obtain ⟨n, rfl⟩ := hbuf
  intro q hq
  simp only [lissFrames, List.mem_map] at hq
  obtain ⟨k, -, rfl⟩ := hq
  exact ⟨(clip_bounds _).1, (clip_bounds _).2, (clip_bounds _).1, (clip_bounds _).2⟩

/-- Witness for C5 at `base_freq = 1`, `ratio = 1`, `phase_deg = 0`,
`sample_rate = 2`. -/
theorem samples_in_unit_range_witness :
    generate_lissajous 1 (PyNum.int 1) 0 2 = Except.ok (lissFrames 1 1 0 2, 2) ∧
    (∀ q ∈ lissFrames 1 1 0 2, -1 ≤ q.1 ∧ q.1 ≤ 1 ∧ -1 ≤ q.2 ∧ q.2 ≤ 1) := by
  have h : generate_lissajous 1 (PyNum.int 1) 0 2 =
      Except.ok (lissFrames 1 1 0 2, 2) :=
    generate_ok 1 0 1 2 (by norm_num) (by norm_num) (by norm_num)
  exact ⟨h, samples_in_unit_range 1 0 (PyNum.int 1) 2 (lissFrames 1 1 0 2) 2 h⟩

lemma emod_le_self (m N : ℤ) (hm : 0 ≤ m) (hN : 0 < N) : m % N ≤ m := by
  rcases lt_or_le m N with h | h
  · rw [Int.emod_eq_of_lt hm h]
  · exact le_trans (Int.emod_lt_of_pos m hN).le h

lemma fract_neg_div (r N : ℤ) (h0 : 0 < r) (hrN : r < N) :
    Int.fract (-((r : ℚ) / N)) = 1 - (r : ℚ) / N := by
  have hN : (0 : ℚ) < (N : ℚ) := by exact_mod_cast h0.trans hrN
  have h1 : (0 : ℚ) < (r : ℚ) / N := div_pos (by exact_mod_cast h0) hN
  have h2 : (r : ℚ) / N < 1 := (div_lt_one hN).mpr (by exact_mod_cast hrN)
  rw [Int.fract_eq_iff]
  refine ⟨by linarith, by linarith, ⟨-1, ?_⟩⟩
  push_cast
  ring

/-- The core closure computation: a channel that completes a whole number
`m ≥ 0` of cycles over `N ≥ 1` samples ends, at sample `N - 1`, within one
per-sample advance `m / N` (in cycles) of its start position on the circle. -/
lemma cycleDist_last_first (m N : ℤ) (hm : 0 ≤ m) (hN : 1 ≤ N) :
    cycleDist ((m : ℚ) * ((N : ℚ) - 1) / N) 0 ≤ (m : ℚ) / N := by
  have hNQ : (0 : ℚ) < (N : ℚ) := by exact_mod_cast hN
  have hmN : (0 : ℚ) ≤ (m : ℚ) / N := div_nonneg (by exact_mod_cast hm) hNQ.le
  have hx : (m : ℚ) * ((N : ℚ) - 1) / N - 0 = -((m : ℚ) / N) + ((m : ℤ) : ℚ) := by
    field_simp
    ring
  unfold cycleDist
  rw [hx, Int.fract_add_int]
  set r : ℤ := m % N with hr
  have hr0 : 0 ≤ r := Int.emod_nonneg m (by omega)
  have hrN : r < N := Int.emod_lt_of_pos m (by omega)
  have hrm : r ≤ m := emod_le_self m N hm (by omega)
  have hdecomp : -((m : ℚ) / N) = -((r : ℚ) / N) + ((-(m / N) : ℤ) : ℚ) := by
    have hm_eq : (m : ℚ) = (N : ℚ) * ((m / N : ℤ) : ℚ) + (r : ℚ) := by
      rw [hr]
      exact_mod_cast (Int.ediv_add_emod m N).symm
    rw [hm_eq]
    push_cast
    field_simp
    ring
  rw [hdecomp, Int.fract_add_int]
  rcases eq_or_lt_of_le hr0 with h0 | h0
  · rw [← h0]
    norm_num
    exact hmN
  · rw [fract_neg_div r N h0 hrN]
    have hle : (r : ℚ) / N ≤ (m : ℚ) / N := by
      gcongr
    calc min (1 - (r : ℚ) / N) (1 - (1 - (r : ℚ) / N)) ≤ 1 - (1 - (r : ℚ) / N) :=
          min_le_right _ _
      _ = (r : ℚ) / N := by ring
      _ ≤ (m : ℚ) / N := hle

/-- The cycle-position difference between the last sample (`N - 1`) and the
first sample (`0`) of a channel whose frequency times the duration is the
integer `m`. -/
lemma phase_last_eq (freq d : ℚ) (N m : ℤ) (hN : 1 ≤ N) (hfd : freq * d = (m : ℚ)) :
    phaseCycles freq d N (N.toNat - 1) - phaseCycles freq d N 0 =
      (m : ℚ) * ((N : ℚ) - 1) / N := by
  have htn : ((N.toNat - 1 : ℕ) : ℚ) = (N : ℚ) - 1 := by
    have h1 : 1 ≤ N.toNat := by omega
    rw [Nat.cast_sub h1, Nat.cast_one]
    have h2 : ((N.toNat : ℕ) : ℚ) = (N : ℚ) := by
      exact_mod_cast Int.toNat_of_nonneg (by omega : (0 : ℤ) ≤ N)
    rw [h2]
  unfold phaseCycles linspacePoint
  rw [htn, ← hfd]
  push_cast
  ring

/-- **C4.** The figure closes.  On every valid input with a non-empty
buffer, for each channel the cycle position (phase divided by `2π`, taken
mod 1) of the last sample is within one per-sample phase advance of the
cycle position of the first sample: the duration is an exact whole number
of periods of both channel frequencies (`f·d = ratio` cycles on the left,
`f·ratio·d = ratio²` on the right), so the next sample after the last would
land exactly on the start.  `phaseCycles freq d N k = freq · t_k` is the
sine argument of that channel at sample `k`, divided by `2π` (the constant
phase offset of the right channel cancels in the difference), and
`freq · d / N` is the per-sample advance in cycles. -/
theorem figure_closes (f p : ℚ) (n sr : ℤ)
    (hf : 0 < f) (hn : 0 < n) (hsr : 0 < sr)
    (hne : 1 ≤ frameCount f n sr) :
    cycleDist
        (phaseCycles f (_auto_duration f n) (frameCount f n sr)
          ((frameCount f n sr).toNat - 1))
        (phaseCycles f (_auto_duration f n) (frameCount f n sr) 0) ≤
      f * _auto_duration f n / (frameCount f n sr : ℚ) ∧
    cycleDist
        (phaseCycles (f * (n : ℚ)) (_auto_duration f n) (frameCount f n sr)
          ((frameCount f n sr).toNat - 1))
        (phaseCycles (f * (n : ℚ)) (_auto_duration f n) (frameCount f n sr) 0) ≤
      f * (n : ℚ) * _auto_duration f n / (frameCount f n sr : ℚ) := by
  have hd := _auto_duration_eq f n hn.le
  have hfd1 : f * _auto_duration f n = ((n : ℤ) : ℚ) := by
    rw [hd]
    field_simp
  have hfd2 : f * (n : ℚ) * _auto_duration f n = ((n * n : ℤ) : ℚ) := by
    rw [hd]
    push_cast
    field_simp
    ring
  constructor
  · have heq := phase_last_eq f (_auto_duration f n) (frameCount f n sr) n hne hfd1
    have hstep := cycleDist_last_first n (frameCount f n sr) hn.le hne
    unfold cycleDist at hstep ⊢
    rw [sub_zero] at hstep
    rw [heq, hfd1]
    exact hstep
  · have heq := phase_last_eq (f * (n : ℚ)) (_auto_duration f n)
      (frameCount f n sr) (n * n) hne hfd2
    have hstep := cycleDist_last_first (n * n) (frameCount f n sr)
      (mul_nonneg hn.le hn.le) hne
    unfold cycleDist at hstep ⊢
    rw [sub_zero] at hstep
    rw [heq, hfd2]
    exact hstep

/-- Witness for C4 at `base_freq = 1`, `ratio = 1`, `phase_deg = 0`,
`sample_rate = 2` (a two-frame buffer): the left channel's final cycle
position is within one sample-step of its initial one. -/
theorem figure_closes_witness :
    (0 : ℚ) < 1 ∧ (0 : ℤ) < 1 ∧ (0 : ℤ) < 2 ∧ 1 ≤ frameCount 1 1 2 ∧
    cycleDist
        (phaseCycles 1 (_auto_duration 1 1) (frameCount 1 1 2)
          ((frameCount 1 1 2).toNat - 1))
        (phaseCycles 1 (_auto_duration 1 1) (frameCount 1 1 2) 0) ≤
      1 * _auto_duration 1 1 / (frameCount 1 1 2 : ℚ) := by
  have hN : frameCount 1 1 2 = 2 := by
    rw [frameCount_eq_floor 1 1 2 (by norm_num) (by norm_num),
      _auto_duration_eq 1 1 (by norm_num)]
    norm_num
  have hne : 1 ≤ frameCount 1 1 2 := by rw [hN]; norm_num
  have h := figure_closes 1 0 1 2 (by norm_num) (by norm_num) (by norm_num) hne
  exact ⟨by norm_num, by norm_num, by norm_num, hne, by exact_mod_cast h.1⟩

end Lisspyscope
